import Mathlib

/-!
Shallow embedding of the quote-resolution and caching core of the
Portfolio-Tracker repository (services/prices.js and its variants).

JavaScript numbers are modelled as rationals, JS falsy checks on numbers
(`if (!price)`) as tests for `none` or `0`, and upstream HTTP providers as
oracle functions supplied in a `World` record: each provider response that
the adapter code inspects is one oracle value.  Network effects are made
observable by returning the number of outbound requests each call issues.
The in-process node-cache instance is modelled as an association list of
(key, quote, expiry) triples threaded through every call; a read takes the
most recent write for a key, matching overwrite semantics.
-/

namespace PortfolioTracker

/-- Model of the ASCII action of JavaScript `String.prototype.toUpperCase`
(the symbols and asset-class tags of this program are ASCII strings). -/
def jsToUpper (s : String) : String := ⟨s.data.map Char.toUpper⟩

/-- Model of the JS string-or-default idiom `v || dflt`: the empty string is
falsy, as are `null`/`undefined` (modelled by `none`). -/
def jsOrString (v : Option String) (dflt : String) : String :=
  match v with
  | some s => if s = "" then dflt else s
  | none => dflt

/-- Normalized quote record produced by the provider adapters
(services/prices.js). -/
structure Quote where
  symbol : String
  price : ℚ
  currency : String
  source : String
deriving Repr, DecidableEq

/-- The fields of a `yahoo-finance2` quote response that `fetchYahooQuote`
inspects; `none` models an absent field. -/
structure YQuote where
  regularMarketPrice : Option ℚ
  currency : Option String
deriving Repr, DecidableEq

/-- Outcome of one CoinGecko simple-price HTTP request: a non-2xx status, or
a JSON body whose `data?.[id]?.[fiat]` field is `price` (absent = `none`). -/
inductive CGResponse where
  | httpError (status : Nat)
  | json (price : Option ℚ)
deriving Repr, DecidableEq

/-- Outcome of one `yahooFinance.quote(symbol)` call: the library throws with
a message, or returns a (possibly null) quote object. -/
inductive YResponse where
  | fail (msg : String)
  | ok (q : Option YQuote)
deriving Repr, DecidableEq

/-- Outcome of one Alpha Vantage GLOBAL_QUOTE HTTP request: a non-2xx status,
or a JSON body whose parsed `05. price` field is `price`
(absent field and unparseable text both give `none`). -/
inductive AVResponse where
  | httpError (status : Nat)
  | json (price : Option ℚ)
deriving Repr, DecidableEq

/-- The upstream provider network, as a deterministic oracle: what each
provider would answer for each id/symbol queried. -/
structure World where
  coingecko : String → CGResponse
  yahoo : String → YResponse
  alphaVantage : String → AVResponse

/-- The curated `CRYPTO_MAP` symbol-to-provider-id table of
services/prices.js. -/
def CRYPTO_MAP : String → Option String := fun s =>
  if s = "BTC" then some "bitcoin"
  else if s = "ETH" then some "ethereum"
  else if s = "ADA" then some "cardano"
  else if s = "BNB" then some "binancecoin"
  else if s = "XRP" then some "ripple"
  else if s = "DOGE" then some "dogecoin"
  else if s = "SOL" then some "solana"
  else if s = "MATIC" then some "matic-network"
  else if s = "LTC" then some "litecoin"
  else none

/-- `fetchCoinGeckoPrice` of services/prices.js (identical in every variant
of the file).  Returns the adapter result together with the number of
outbound HTTP requests the call issued. -/
def fetchCoinGeckoPrice (w : World) (fiat : String) (symbol : String) :
    Except String Quote × Nat :=
  match CRYPTO_MAP (jsToUpper symbol) with
  | none => (Except.error ("Unsupported crypto symbol: " ++ symbol), 0)
  | some pid =>
    match w.coingecko pid with
    | CGResponse.httpError status =>
      (Except.error ("CoinGecko error " ++ toString status), 1)
    | CGResponse.json price =>
      match price with
      | none => (Except.error "Price not found from CoinGecko", 1)
      | some p =>
        if p = 0 then (Except.error "Price not found from CoinGecko", 1)
        else
          (Except.ok { symbol := jsToUpper symbol, price := p, currency := fiat,
                       source := "CoinGecko" }, 1)

/-- `fetchYahooQuote` of the per-class-TTL variant of services/prices.js
(src/unnamed/part_000).  The function's own `throw` sits inside its
`try`/`catch`, so every failure message is wrapped with the provider name. -/
def fetchYahooQuote (w : World) (fiat : String) (symbol : String) :
    Except String Quote × Nat :=
  match w.yahoo symbol with
  | YResponse.fail msg => (Except.error ("Yahoo Finance error: " ++ msg), 1)
  | YResponse.ok none =>
    (Except.error "Yahoo Finance error: Price not found from Yahoo Finance", 1)
  | YResponse.ok (some yq) =>
    match yq.regularMarketPrice with
    | none =>
      (Except.error "Yahoo Finance error: Price not found from Yahoo Finance", 1)
    | some p =>
      if p = 0 then
        (Except.error "Yahoo Finance error: Price not found from Yahoo Finance", 1)
      else
        (Except.ok { symbol := jsToUpper symbol, price := p,
                     currency := jsOrString yq.currency fiat,
                     source := "Yahoo Finance" }, 1)

/-- `fetchAlphaVantageQuote` of the Alpha Vantage variant of
services/prices.js.  `hasKey` models the presence of the
`ALPHA_VANTAGE_KEY` environment variable; the JS
`parseFloat(...) || null` turns a parsed `0` into `null`, modelled by the
explicit zero test. -/
def fetchAlphaVantageQuote (hasKey : Bool) (w : World) (fiat : String)
    (symbol : String) : Except String Quote × Nat :=
  if hasKey = false then (Except.error "Missing ALPHA_VANTAGE_KEY", 0)
  else
    match w.alphaVantage symbol with
    | AVResponse.httpError status =>
      (Except.error ("Alpha Vantage error " ++ toString status), 1)
    | AVResponse.json parsed =>
      let price : Option ℚ :=
        match parsed with
        | some v => if v = 0 then none else some v
        | none => none
      match price with
      | none => (Except.error "Price not found from Alpha Vantage", 1)
      | some p =>
        (Except.ok { symbol := symbol, price := p, currency := fiat,
                     source := "Alpha Vantage" }, 1)

/-- The node-cache store: most recent write first; `cacheGet` takes the first
entry for a key, so consing a write models node-cache's overwrite. -/
abbrev Cache := List (String × Quote × ℚ)

/-- node-cache `get`: an entry answers only while `now ≤ expiresAt`
(node-cache treats an entry as live while its expiry timestamp has not yet
passed); an expired entry is a miss. -/
def cacheGet (c : Cache) (now : ℚ) (key : String) : Option Quote :=
  match c with
  | [] => none
  | (k, q, exp) :: rest =>
    if k = key then (if now ≤ exp then some q else none)
    else cacheGet rest now key

/-- node-cache `set` with an explicit per-entry TTL in seconds. -/
def cacheSet (c : Cache) (now ttl : ℚ) (key : String) (q : Quote) : Cache :=
  (key, q, now + ttl) :: c

/-- The `STOCK_TTL` constant of src/unnamed/part_000 (seconds). -/
def STOCK_TTL : ℚ := 900

/-- The `CRYPTO_TTL` constant of src/unnamed/part_000 (seconds). -/
def CRYPTO_TTL : ℚ := 60

/-- The cache key `` `${type}:${symbol}`.toUpperCase() `` of `getQuote`. -/
def quoteKey (assetType symbol : String) : String :=
  jsToUpper (assetType ++ ":" ++ symbol)

/-- `getQuote` of the per-class-TTL variant (src/unnamed/part_000): cache
lookup first; on a miss, crypto routes to CoinGecko and is cached for
`CRYPTO_TTL`, everything else routes to Yahoo Finance and is cached for
`STOCK_TTL`; a thrown adapter error propagates and skips the `cache.set`. -/
def getQuote (w : World) (fiat : String) (c : Cache) (now : ℚ)
    (assetType symbol : String) : Except String Quote × Cache × Nat :=
  let key := quoteKey assetType symbol
  match cacheGet c now key with
  | some cached => (Except.ok cached, c, 0)
  | none =>
    if assetType = "crypto" then
      match fetchCoinGeckoPrice w fiat symbol with
      | (Except.ok result, n) =>
        (Except.ok result, cacheSet c now CRYPTO_TTL key result, n)
      | (Except.error e, n) => (Except.error e, c, n)
    else
      match fetchYahooQuote w fiat symbol with
      | (Except.ok result, n) =>
        (Except.ok result, cacheSet c now STOCK_TTL key result, n)
      | (Except.error e, n) => (Except.error e, c, n)

namespace PricesJs

/-- `fetchYahooQuote` of the flat-TTL variant of services/prices.js: as the
part_000 adapter, but the returned symbol is not uppercased. -/
def fetchYahooQuote (w : World) (fiat : String) (symbol : String) :
    Except String Quote × Nat :=
  match w.yahoo symbol with
  | YResponse.fail msg => (Except.error ("Yahoo Finance error: " ++ msg), 1)
  | YResponse.ok none =>
    (Except.error "Yahoo Finance error: Price not found from Yahoo Finance", 1)
  | YResponse.ok (some yq) =>
    match yq.regularMarketPrice with
    | none =>
      (Except.error "Yahoo Finance error: Price not found from Yahoo Finance", 1)
    | some p =>
      if p = 0 then
        (Except.error "Yahoo Finance error: Price not found from Yahoo Finance", 1)
      else
        (Except.ok { symbol := symbol, price := p,
                     currency := jsOrString yq.currency fiat,
                     source := "Yahoo Finance" }, 1)

/-- `getQuote` of the flat-TTL variant of services/prices.js: cache lookup
first; on a miss, crypto routes to CoinGecko, the classes `stock`,
`mutual_fund` and `commodity` route to Yahoo Finance, and any other class
throws `Unsupported asset type` before either adapter runs; a single
`cache.set` (at the constructor's 60-second `stdTTL`) runs only on
success. -/
def getQuote (w : World) (fiat : String) (c : Cache) (now : ℚ)
    (assetType symbol : String) : Except String Quote × Cache × Nat :=
  let key := quoteKey assetType symbol
  match cacheGet c now key with
  | some cached => (Except.ok cached, c, 0)
  | none =>
    match (if assetType = "crypto" then fetchCoinGeckoPrice w fiat symbol
           else if (["stock", "mutual_fund", "commodity"] : List String).contains assetType then
             fetchYahooQuote w fiat symbol
           else (Except.error ("Unsupported asset type: " ++ assetType), 0)) with
    | (Except.ok result, n) => (Except.ok result, cacheSet c now 60 key result, n)
    | (Except.error e, n) => (Except.error e, c, n)

end PricesJs

/-- The fields of a stored holding that `enrichAssetsWithPrices` reads
(models/Asset.js schema; `a.toObject()` spreads them into the result). -/
structure Asset where
  symbol : String
  type : String
  quantity : ℚ
  buyPrice : ℚ
deriving Repr, DecidableEq

/-- One element of the list `enrichAssetsWithPrices` returns: the holding's
own fields plus the valuation fields of the success branch or the
error-tagged null fields of the catch branch. -/
structure EnrichedAsset where
  asset : Asset
  currentPrice : Option ℚ
  error : Option String
  currency : String
  currentValue : Option ℚ
  invested : ℚ
  pnl : Option ℚ
  pnlPct : Option ℚ
deriving Repr, DecidableEq

/-- `enrichAssetsWithPrices` of src/unnamed/part_000 (the loop body is
identical in every variant of services/prices.js): a sequential loop over
the holdings, one `getQuote` each, with the per-holding `try`/`catch`
emitting an error record instead of aborting the batch.  The cache is
threaded through the loop and the issued network requests are summed. -/
def enrichAssetsWithPrices (w : World) (fiat : String) (now : ℚ) :
    List Asset → Cache → List EnrichedAsset × Cache × Nat
  | [], c => ([], c, 0)
  | a :: rest, c =>
    match getQuote w fiat c now a.type a.symbol with
    | (Except.ok quote, c', n) =>
      let currentValue := quote.price * a.quantity
      let invested := a.buyPrice * a.quantity
      let pnl := currentValue - invested
      let pnlPct := if invested > 0 then (pnl / invested) * 100 else 0
      let r := enrichAssetsWithPrices w fiat now rest c'
      ({ asset := a, currentPrice := some quote.price, error := none,
         currency := quote.currency, currentValue := some currentValue,
         invested := invested, pnl := some pnl, pnlPct := some pnlPct } :: r.1,
       r.2.1, n + r.2.2)
    | (Except.error err, c', n) =>
      let r := enrichAssetsWithPrices w fiat now rest c'
      ({ asset := a, currentPrice := none, error := some err, currency := fiat,
         currentValue := none, invested := a.buyPrice * a.quantity,
         pnl := none, pnlPct := none } :: r.1,
       r.2.1, n + r.2.2)

/-! Helper lemmas shared by the claim theorems. -/

theorem fetchCoinGeckoPrice_ok_calls (w : World) (fiat s : String) (q : Quote)
    (n : Nat) (h : fetchCoinGeckoPrice w fiat s = (Except.ok q, n)) : n = 1 := by
  unfold fetchCoinGeckoPrice at h
  rcases hm : CRYPTO_MAP (jsToUpper s) with _ | pid <;> simp only [hm] at h
  · simp at h
  · rcases hr : w.coingecko pid with st | pr <;> simp only [hr] at h
    · simp at h
    · rcases hpr : pr with _ | p <;> simp only [hpr] at h
      · simp at h
      · by_cases hp : p = 0
        · rw [if_pos hp] at h
          simp at h
        · rw [if_neg hp] at h
          injection h with h1 h2
          exact h2.symm

theorem fetchCoinGeckoPrice_ok_mapped (w : World) (fiat s : String) (q : Quote)
    (n : Nat) (h : fetchCoinGeckoPrice w fiat s = (Except.ok q, n)) :
    CRYPTO_MAP (jsToUpper s) ≠ none := by
  intro hm
  unfold fetchCoinGeckoPrice at h
  simp only [hm] at h
  simp at h

theorem fetchYahooQuote_calls (w : World) (fiat s : String) :
    (fetchYahooQuote w fiat s).2 = 1 := by
  unfold fetchYahooQuote
  rcases hy : w.yahoo s with msg | oq
  · rfl
  · rcases oq with _ | ⟨rmp, curr⟩
    · rfl
    · rcases rmp with _ | p
      · rfl
      · by_cases h0 : p = 0 <;> simp [h0]

theorem getQuote_cache_hit (w : World) (fiat : String) (c : Cache) (now : ℚ)
    (ty sym : String) (q : Quote)
    (h : cacheGet c now (quoteKey ty sym) = some q) :
    getQuote w fiat c now ty sym = (Except.ok q, c, 0) := by
  simp only [getQuote, h]

theorem getQuote_miss_eq (w : World) (fiat : String) (c : Cache) (now : ℚ)
    (ty sym : String) (hmiss : cacheGet c now (quoteKey ty sym) = none) :
    getQuote w fiat c now ty sym =
      match (if ty = "crypto" then fetchCoinGeckoPrice w fiat sym
             else fetchYahooQuote w fiat sym) with
      | (Except.ok r, n) =>
        (Except.ok r,
         cacheSet c now (if ty = "crypto" then CRYPTO_TTL else STOCK_TTL)
           (quoteKey ty sym) r, n)
      | (Except.error e, n) => (Except.error e, c, n) := by
  simp only [getQuote, hmiss]
  by_cases h : ty = "crypto" <;> simp [h]



theorem getQuote_error_cache (w : World) (fiat : String) (c : Cache) (now : ℚ)
    (ty sym : String) (e : String)
    (h : (getQuote w fiat c now ty sym).1 = Except.error e) :
    (getQuote w fiat c now ty sym).2.1 = c := by
  rcases hc : cacheGet c now (quoteKey ty sym) with _ | q
  · rw [getQuote_miss_eq w fiat c now ty sym hc] at h ⊢
    rcases hf : (if ty = "crypto" then fetchCoinGeckoPrice w fiat sym
                 else fetchYahooQuote w fiat sym) with ⟨res, n⟩
    rw [hf] at h
    rcases res with e' | r
    · rfl
    · exact Except.noConfusion h
  · rw [getQuote_cache_hit w fiat c now ty sym q hc] at h
    exact Except.noConfusion h

theorem getQuote_miss_ok (w : World) (fiat : String) (c : Cache) (now : ℚ)
    (ty sym : String) (q : Quote)
    (hmiss : cacheGet c now (quoteKey ty sym) = none)
    (hok : (getQuote w fiat c now ty sym).1 = Except.ok q) :
    getQuote w fiat c now ty sym =
      (Except.ok q,
       cacheSet c now (if ty = "crypto" then CRYPTO_TTL else STOCK_TTL)
         (quoteKey ty sym) q, 1) := by
  rw [getQuote_miss_eq w fiat c now ty sym hmiss] at hok ⊢
  rcases hf : (if ty = "crypto" then fetchCoinGeckoPrice w fiat sym
               else fetchYahooQuote w fiat sym) with ⟨res, n⟩
  rw [hf] at hok
  rcases res with e | r
  · exact Except.noConfusion hok
  · injection hok with hr
    subst hr
    have hn : n = 1 := by
      by_cases hty : ty = "crypto"
      · rw [if_pos hty] at hf
        exact fetchCoinGeckoPrice_ok_calls w fiat sym _ n hf
      · rw [if_neg hty] at hf
        have h2 := fetchYahooQuote_calls w fiat sym
        rw [hf] at h2
        exact h2
    rw [hn]

theorem cacheGet_cacheSet_same (c : Cache) (now ttl t : ℚ) (key : String)
    (q : Quote) :
    cacheGet (cacheSet c now ttl key q) t key =
      if t ≤ now + ttl then some q else none := by
  simp [cacheGet, cacheSet]

theorem enrich_length_get (w : World) (fiat : String) (now : ℚ)
    (assets : List Asset) (c : Cache) :
    (enrichAssetsWithPrices w fiat now assets c).1.length = assets.length ∧
    ∀ i : Nat, ((enrichAssetsWithPrices w fiat now assets c).1.get? i).map
        (fun e => e.asset) = assets.get? i := by
  induction assets generalizing c with
  | nil =>
    refine ⟨rfl, fun i => ?_⟩
    cases i <;> rfl
  | cons a rest ih =>
    rcases hg : getQuote w fiat c now a.type a.symbol with ⟨res, c', n⟩
    rcases res with e | q
    · constructor
      · simp only [enrichAssetsWithPrices, hg, List.length_cons]
        exact congrArg (fun x => x + 1) (ih c').1
      · intro i
        cases i with
        | zero => simp only [enrichAssetsWithPrices, hg]; rfl
        | succ j =>
          simp only [enrichAssetsWithPrices, hg]
          exact (ih c').2 j
    · constructor
      · simp only [enrichAssetsWithPrices, hg, List.length_cons]
        exact congrArg (fun x => x + 1) (ih c').1
      · intro i
        cases i with
        | zero => simp only [enrichAssetsWithPrices, hg]; rfl
        | succ j =>
          simp only [enrichAssetsWithPrices, hg]
          exact (ih c').2 j

theorem enrich_append (w : World) (fiat : String) (now : ℚ)
    (xs ys : List Asset) (c : Cache) :
    enrichAssetsWithPrices w fiat now (xs ++ ys) c =
      ((enrichAssetsWithPrices w fiat now xs c).1 ++
         (enrichAssetsWithPrices w fiat now ys
           (enrichAssetsWithPrices w fiat now xs c).2.1).1,
       (enrichAssetsWithPrices w fiat now ys
         (enrichAssetsWithPrices w fiat now xs c).2.1).2.1,
       (enrichAssetsWithPrices w fiat now xs c).2.2 +
         (enrichAssetsWithPrices w fiat now ys
           (enrichAssetsWithPrices w fiat now xs c).2.1).2.2) := by
  induction xs generalizing c with
  | nil => simp [enrichAssetsWithPrices]
  | cons a rest ih =>
    rcases hg : getQuote w fiat c now a.type a.symbol with ⟨res, c', n⟩
    rcases res with e | q
    · simp only [List.cons_append, enrichAssetsWithPrices, hg]
      simp [ih c', Nat.add_assoc]
    · simp only [List.cons_append, enrichAssetsWithPrices, hg]
      simp [ih c', Nat.add_assoc]


theorem getQuote_fetch_ok (w : World) (fiat : String) (c : Cache) (now : ℚ)
    (ty sym : String) (q : Quote)
    (hmiss : cacheGet c now (quoteKey ty sym) = none)
    (hok : (getQuote w fiat c now ty sym).1 = Except.ok q) :
    (if ty = "crypto" then fetchCoinGeckoPrice w fiat sym
     else fetchYahooQuote w fiat sym) = (Except.ok q, 1) := by
  rw [getQuote_miss_eq w fiat c now ty sym hmiss] at hok
  rcases hf : (if ty = "crypto" then fetchCoinGeckoPrice w fiat sym
               else fetchYahooQuote w fiat sym) with ⟨res, n⟩
  rw [hf] at hok
  rcases res with e | r
  · exact Except.noConfusion hok
  · injection hok with hr
    have hn : n = 1 := by
      by_cases hty : ty = "crypto"
      · rw [if_pos hty] at hf
        exact fetchCoinGeckoPrice_ok_calls w fiat sym _ n hf
      · rw [if_neg hty] at hf
        have h2 := fetchYahooQuote_calls w fiat sym
        rw [hf] at h2
        exact h2
    rw [hr, hn]

/-- A demonstration provider network used by the concrete witnesses:
CoinGecko knows bitcoin at 30000, Yahoo knows TCS at 100 INR, Alpha Vantage
answers 50 for everything. -/
def wDemo : World :=
  { coingecko := fun pid =>
      if pid = "bitcoin" then CGResponse.json (some 30000) else CGResponse.json none
    yahoo := fun sym =>
      if sym = "TCS" then
        YResponse.ok (some { regularMarketPrice := some 100, currency := some "INR" })
      else YResponse.fail "not found"
    alphaVantage := fun _ => AVResponse.json (some 50) }

/-- The quote `wDemo` yields for BTC. -/
def qBTC : Quote :=
  { symbol := "BTC", price := 30000, currency := "USD", source := "CoinGecko" }

/-- C6: `getQuote` (per-class-TTL variant) consults the cache before any
adapter runs (a live entry is answered with zero network calls and an
unchanged cache), writes to the cache only after a successful resolution,
and leaves the cache completely unchanged whenever resolution fails. -/
theorem getQuote_cache_discipline (w : World) (fiat : String) (c : Cache)
    (now : ℚ) (ty sym : String) :
    (∀ q, cacheGet c now (quoteKey ty sym) = some q →
        getQuote w fiat c now ty sym = (Except.ok q, c, 0)) ∧
    (∀ e, (getQuote w fiat c now ty sym).1 = Except.error e →
        (getQuote w fiat c now ty sym).2.1 = c) ∧
    (∀ q, cacheGet c now (quoteKey ty sym) = none →
        (getQuote w fiat c now ty sym).1 = Except.ok q →
        (getQuote w fiat c now ty sym).2.1 =
          cacheSet c now (if ty = "crypto" then CRYPTO_TTL else STOCK_TTL)
            (quoteKey ty sym) q) := by
  refine ⟨fun q h => getQuote_cache_hit w fiat c now ty sym q h,
          fun e h => getQuote_error_cache w fiat c now ty sym e h,
          fun q hmiss hok => ?_⟩
  rw [getQuote_miss_ok w fiat c now ty sym q hmiss hok]

/-- Witness for C6: concrete executions of the three conjuncts — a live
cached BTC entry is answered as-is with no network call, a failing symbol
leaves the cache unchanged, and a fresh successful resolution extends the
cache by exactly its new entry. -/
theorem getQuote_cache_discipline_witness :
    getQuote wDemo "USD" [(quoteKey "crypto" "BTC", qBTC, 100)] 0 "crypto" "BTC" =
      (Except.ok qBTC, [(quoteKey "crypto" "BTC", qBTC, 100)], 0) ∧
    (getQuote wDemo "USD" [] 0 "crypto" "FOO").2.1 = ([] : Cache) ∧
    (getQuote wDemo "USD" [] 0 "crypto" "BTC").2.1 =
      cacheSet [] 0 (if "crypto" = "crypto" then CRYPTO_TTL else STOCK_TTL)
        (quoteKey "crypto" "BTC") qBTC := by
  refine ⟨(getQuote_cache_discipline wDemo "USD"
            [(quoteKey "crypto" "BTC", qBTC, 100)] 0 "crypto" "BTC").1 qBTC ?_,
          (getQuote_cache_discipline wDemo "USD" [] 0 "crypto" "FOO").2.1
            ("Unsupported crypto symbol: " ++ "FOO") ?_,
          (getQuote_cache_discipline wDemo "USD" [] 0 "crypto" "BTC").2.2 qBTC
            rfl ?_⟩
  · show (if quoteKey "crypto" "BTC" = quoteKey "crypto" "BTC"
          then (if (0 : ℚ) ≤ 100 then some qBTC else none) else none) = some qBTC
    rw [if_pos rfl, if_pos (by norm_num)]
  · rfl
  · rfl

/-- C8: on a cache miss that resolves successfully, the per-class-TTL
variant stores the quote with a 60-second TTL for crypto and a 900-second
TTL for stock, mutual-fund and commodity holdings. -/
theorem getQuote_ttl_by_asset_class (w : World) (fiat : String) (c : Cache)
    (now : ℚ) (ty sym : String) (q : Quote) (c' : Cache) (n : Nat)
    (hmiss : cacheGet c now (quoteKey ty sym) = none)
    (hok : getQuote w fiat c now ty sym = (Except.ok q, c', n)) :
    (ty = "crypto" →
      c' = (quoteKey ty sym, q, now + CRYPTO_TTL) :: c ∧ CRYPTO_TTL = 60) ∧
    ((ty = "stock" ∨ ty = "mutual_fund" ∨ ty = "commodity") →
      c' = (quoteKey ty sym, q, now + STOCK_TTL) :: c ∧ STOCK_TTL = 900) := by
  have h1 := getQuote_miss_ok w fiat c now ty sym q hmiss (by rw [hok])
  rw [hok] at h1
  injection h1 with h1a h1b
  injection h1b with hc hn
  constructor
  · intro hty
    rw [if_pos hty] at hc
    exact ⟨hc, rfl⟩
  · intro hty
    have hne : ty ≠ "crypto" := by
      rcases hty with h | h | h <;> rw [h] <;> decide
    rw [if_neg hne] at hc
    exact ⟨hc, rfl⟩

/-- The quote `wDemo` yields for TCS as a stock. -/
def qTCS : Quote :=
  { symbol := "TCS", price := 100, currency := "INR", source := "Yahoo Finance" }

/-- Witness for C8: resolving TCS as a stock from an empty cache stores it
with the 900-second stock TTL. -/
theorem getQuote_ttl_by_asset_class_witness :
    ("stock" = "crypto" →
      cacheSet [] 0 STOCK_TTL (quoteKey "stock" "TCS") qTCS =
        (quoteKey "stock" "TCS", qTCS, (0 : ℚ) + CRYPTO_TTL) :: ([] : Cache) ∧
      CRYPTO_TTL = 60) ∧
    (("stock" = "stock" ∨ "stock" = "mutual_fund" ∨ "stock" = "commodity") →
      cacheSet [] 0 STOCK_TTL (quoteKey "stock" "TCS") qTCS =
        (quoteKey "stock" "TCS", qTCS, (0 : ℚ) + STOCK_TTL) :: ([] : Cache) ∧
      STOCK_TTL = 900) :=
  getQuote_ttl_by_asset_class wDemo "USD" [] 0 "stock" "TCS" qTCS
    (cacheSet [] 0 STOCK_TTL (quoteKey "stock" "TCS") qTCS) 1 rfl rfl

/-- C9: a crypto symbol outside the curated `CRYPTO_MAP` fails immediately
with the unsupported-symbol error and issues zero outbound requests. -/
theorem fetchCoinGeckoPrice_unmapped_no_network (w : World) (fiat sym : String)
    (h : CRYPTO_MAP (jsToUpper sym) = none) :
    fetchCoinGeckoPrice w fiat sym =
      (Except.error ("Unsupported crypto symbol: " ++ sym), 0) := by
  simp only [fetchCoinGeckoPrice, h]

/-- Witness for C9: the unmapped symbol FOO fails with zero requests. -/
theorem fetchCoinGeckoPrice_unmapped_no_network_witness :
    fetchCoinGeckoPrice wDemo "USD" "FOO" =
      (Except.error ("Unsupported crypto symbol: " ++ "FOO"), 0) :=
  fetchCoinGeckoPrice_unmapped_no_network wDemo "USD" "FOO" rfl

/-- C4: in the flat-TTL services/prices.js variant, an asset class outside
the recognized set fails with the unsupported-asset-type error, leaves the
cache unchanged, and issues zero network calls, before either adapter is
invoked. -/
theorem getQuoteJs_unsupported_asset_type (w : World) (fiat : String)
    (c : Cache) (now : ℚ) (ty sym : String)
    (hmiss : cacheGet c now (quoteKey ty sym) = none)
    (hcrypto : ty ≠ "crypto")
    (hother : (["stock", "mutual_fund", "commodity"] : List String).contains ty
      = false) :
    PricesJs.getQuote w fiat c now ty sym =
      (Except.error ("Unsupported asset type: " ++ ty), c, 0) := by
  simp only [PricesJs.getQuote, hmiss, if_neg hcrypto, hother]
  simp

/-- Witness for C4: asset class bond fails without any network call. -/
theorem getQuoteJs_unsupported_asset_type_witness :
    PricesJs.getQuote wDemo "USD" [] 0 "bond" "X" =
      (Except.error ("Unsupported asset type: " ++ "bond"), ([] : Cache), 0) :=
  getQuoteJs_unsupported_asset_type wDemo "USD" [] 0 "bond" "X" rfl
    (by decide) (by decide)

/-- C2: the enriched list has exactly the input's length and its i-th
element is derived from the i-th input holding, whatever the quote
resolutions do. -/
theorem enrich_preserves_length_and_order (w : World) (fiat : String)
    (now : ℚ) (assets : List Asset) (c : Cache) :
    (enrichAssetsWithPrices w fiat now assets c).1.length = assets.length ∧
    ∀ i : Nat, ((enrichAssetsWithPrices w fiat now assets c).1.get? i).map
        (fun e => e.asset) = assets.get? i :=
  enrich_length_get w fiat now assets c

/-- C3: after a cache-miss resolution succeeds, a second `getQuote` for the
same (class, symbol) within the entry's TTL answers from the cache with
zero network calls, and a second call after the TTL has passed issues a new
upstream call. -/
theorem getQuote_cache_ttl_idempotence (w : World) (fiat : String) (c : Cache)
    (t0 t1 : ℚ) (ty sym : String) (q : Quote) (c1 : Cache) (n1 : Nat)
    (hmiss : cacheGet c t0 (quoteKey ty sym) = none)
    (h1 : getQuote w fiat c t0 ty sym = (Except.ok q, c1, n1)) :
    n1 = 1 ∧
    (t1 ≤ t0 + (if ty = "crypto" then CRYPTO_TTL else STOCK_TTL) →
      getQuote w fiat c1 t1 ty sym = (Except.ok q, c1, 0)) ∧
    (t0 + (if ty = "crypto" then CRYPTO_TTL else STOCK_TTL) < t1 →
      (getQuote w fiat c1 t1 ty sym).2.2 = 1) := by
  have hm := getQuote_miss_ok w fiat c t0 ty sym q hmiss (by rw [h1])
  rw [h1] at hm
  injection hm with h1a hrest
  injection hrest with hc hn
  subst hc
  refine ⟨hn, fun ht => ?_, fun ht => ?_⟩
  · have hhit : cacheGet
        (cacheSet c t0 (if ty = "crypto" then CRYPTO_TTL else STOCK_TTL)
          (quoteKey ty sym) q) t1 (quoteKey ty sym) = some q := by
      rw [cacheGet_cacheSet_same]
      exact if_pos ht
    exact getQuote_cache_hit w fiat _ t1 ty sym q hhit
  · have hmiss2 : cacheGet
        (cacheSet c t0 (if ty = "crypto" then CRYPTO_TTL else STOCK_TTL)
          (quoteKey ty sym) q) t1 (quoteKey ty sym) = none := by
      rw [cacheGet_cacheSet_same]
      exact if_neg (not_le.mpr ht)
    have hfetch := getQuote_fetch_ok w fiat c t0 ty sym q hmiss (by rw [h1])
    rw [getQuote_miss_eq w fiat _ t1 ty sym hmiss2, hfetch]

/-- Witness for C3: a BTC quote cached at time 0 is answered from the cache
at time 30 with zero network calls. -/
theorem getQuote_cache_ttl_idempotence_witness :
    getQuote wDemo "USD"
        (cacheSet [] 0 CRYPTO_TTL (quoteKey "crypto" "BTC") qBTC) 30
        "crypto" "BTC" =
      (Except.ok qBTC,
       cacheSet [] 0 CRYPTO_TTL (quoteKey "crypto" "BTC") qBTC, 0) :=
  (getQuote_cache_ttl_idempotence wDemo "USD" [] 0 30 "crypto" "BTC" qBTC
      (cacheSet [] 0 CRYPTO_TTL (quoteKey "crypto" "BTC") qBTC) 1 rfl rfl).2.1
    (by norm_num [CRYPTO_TTL])

/-- C1: a holding whose quote resolution fails is emitted in its input
position as an error record (non-null error, null valuation fields,
invested still computed), and every other holding is enriched exactly as
in the batch with the failing holding removed. -/
theorem enrich_failure_isolation (w : World) (fiat : String) (now : ℚ)
    (xs ys : List Asset) (b : Asset) (c : Cache) (msg : String)
    (hfail : (getQuote w fiat (enrichAssetsWithPrices w fiat now xs c).2.1 now
        b.type b.symbol).1 = Except.error msg) :
    (enrichAssetsWithPrices w fiat now (xs ++ b :: ys) c).1 =
      (enrichAssetsWithPrices w fiat now xs c).1 ++
        { asset := b, currentPrice := none, error := some msg,
          currency := fiat, currentValue := none,
          invested := b.buyPrice * b.quantity,
          pnl := none, pnlPct := none } ::
        (enrichAssetsWithPrices w fiat now ys
          (enrichAssetsWithPrices w fiat now xs c).2.1).1 ∧
    (enrichAssetsWithPrices w fiat now (xs ++ ys) c).1 =
      (enrichAssetsWithPrices w fiat now xs c).1 ++
        (enrichAssetsWithPrices w fiat now ys
          (enrichAssetsWithPrices w fiat now xs c).2.1).1 := by
  have hA := enrich_append w fiat now xs (b :: ys) c
  have hA2 := enrich_append w fiat now xs ys c
  rcases hg : getQuote w fiat (enrichAssetsWithPrices w fiat now xs c).2.1 now
      b.type b.symbol with ⟨res, c', n⟩
  have hres : res = Except.error msg := by
    rw [hg] at hfail
    exact hfail
  subst hres
  have hcache : c' = (enrichAssetsWithPrices w fiat now xs c).2.1 := by
    have h2 := getQuote_error_cache w fiat
      (enrichAssetsWithPrices w fiat now xs c).2.1 now b.type b.symbol msg
      (by rw [hg])
    rw [hg] at h2
    exact h2
  subst hcache
  constructor
  · rw [congrArg Prod.fst hA]
    show (enrichAssetsWithPrices w fiat now xs c).1 ++
        (enrichAssetsWithPrices w fiat now (b :: ys)
          (enrichAssetsWithPrices w fiat now xs c).2.1).1 = _
    congr 1
    simp only [enrichAssetsWithPrices, hg]
  · rw [congrArg Prod.fst hA2]

/-- Demo holding: two BTC bought at 20000. -/
def aBTC : Asset :=
  { symbol := "BTC", type := "crypto", quantity := 2, buyPrice := 20000 }

/-- Demo holding with an unresolvable crypto symbol. -/
def aFOO : Asset :=
  { symbol := "FOO", type := "crypto", quantity := 1, buyPrice := 10 }

/-- Witness for C1: enriching [FOO, BTC] emits the failing FOO first, as an
error record, followed by exactly the enrichment of [BTC] alone. -/
theorem enrich_failure_isolation_witness :
    (enrichAssetsWithPrices wDemo "USD" 0 ([] ++ aFOO :: [aBTC]) []).1 =
      (enrichAssetsWithPrices wDemo "USD" 0 [] []).1 ++
        { asset := aFOO, currentPrice := none,
          error := some ("Unsupported crypto symbol: " ++ "FOO"),
          currency := "USD", currentValue := none,
          invested := aFOO.buyPrice * aFOO.quantity,
          pnl := none, pnlPct := none } ::
        (enrichAssetsWithPrices wDemo "USD" 0 [aBTC]
          (enrichAssetsWithPrices wDemo "USD" 0 [] []).2.1).1 ∧
    (enrichAssetsWithPrices wDemo "USD" 0 ([] ++ [aBTC]) []).1 =
      (enrichAssetsWithPrices wDemo "USD" 0 [] []).1 ++
        (enrichAssetsWithPrices wDemo "USD" 0 [aBTC]
          (enrichAssetsWithPrices wDemo "USD" 0 [] []).2.1).1 :=
  enrich_failure_isolation wDemo "USD" 0 [] [aBTC] aFOO []
    ("Unsupported crypto symbol: " ++ "FOO") rfl

/-- C7: a holding whose quote resolves with price p is emitted at its input
position with currentValue = p * quantity, invested = buyPrice * quantity,
pnl = currentValue - invested, and the zero-division-guarded pnlPct; when
invested = 0 the emitted pnlPct is 0 whatever pnl is. -/
theorem enrich_success_valuation (w : World) (fiat : String) (now : ℚ)
    (xs ys : List Asset) (a : Asset) (c : Cache) (q : Quote)
    (hok : (getQuote w fiat (enrichAssetsWithPrices w fiat now xs c).2.1 now
        a.type a.symbol).1 = Except.ok q) :
    (enrichAssetsWithPrices w fiat now (xs ++ a :: ys) c).1.get? xs.length =
      some { asset := a, currentPrice := some q.price, error := none,
             currency := q.currency,
             currentValue := some (q.price * a.quantity),
             invested := a.buyPrice * a.quantity,
             pnl := some (q.price * a.quantity - a.buyPrice * a.quantity),
             pnlPct := some (if a.buyPrice * a.quantity > 0
               then ((q.price * a.quantity - a.buyPrice * a.quantity) /
                     (a.buyPrice * a.quantity)) * 100 else 0) } ∧
    (a.buyPrice * a.quantity = 0 →
      ((enrichAssetsWithPrices w fiat now (xs ++ a :: ys) c).1.get?
          xs.length).map (fun e => e.pnlPct) = some (some 0)) := by
  have hA := enrich_append w fiat now xs (a :: ys) c
  rcases hg : getQuote w fiat (enrichAssetsWithPrices w fiat now xs c).2.1 now
      a.type a.symbol with ⟨res, c', n⟩
  have hres : res = Except.ok q := by
    rw [hg] at hok
    exact hok
  subst hres
  have hlen : (enrichAssetsWithPrices w fiat now xs c).1.length = xs.length :=
    (enrich_length_get w fiat now xs c).1
  have hmain : (enrichAssetsWithPrices w fiat now (xs ++ a :: ys) c).1.get?
      xs.length =
      some { asset := a, currentPrice := some q.price, error := none,
             currency := q.currency,
             currentValue := some (q.price * a.quantity),
             invested := a.buyPrice * a.quantity,
             pnl := some (q.price * a.quantity - a.buyPrice * a.quantity),
             pnlPct := some (if a.buyPrice * a.quantity > 0
               then ((q.price * a.quantity - a.buyPrice * a.quantity) /
                     (a.buyPrice * a.quantity)) * 100 else 0) } := by
    rw [congrArg Prod.fst hA]
    rw [List.get?_append_right (le_of_eq hlen)]
    rw [hlen, Nat.sub_self]
    simp only [enrichAssetsWithPrices, hg]
    rfl
  refine ⟨hmain, fun h0 => ?_⟩
  rw [hmain]
  simp [h0]

/-- Witness for C7: two BTC bought at 20000 and quoted at 30000. -/
theorem enrich_success_valuation_witness :
    (enrichAssetsWithPrices wDemo "USD" 0 ([] ++ aBTC :: []) []).1.get?
        (List.length ([] : List Asset)) =
      some { asset := aBTC, currentPrice := some qBTC.price, error := none,
             currency := qBTC.currency,
             currentValue := some (qBTC.price * aBTC.quantity),
             invested := aBTC.buyPrice * aBTC.quantity,
             pnl := some (qBTC.price * aBTC.quantity -
               aBTC.buyPrice * aBTC.quantity),
             pnlPct := some (if aBTC.buyPrice * aBTC.quantity > 0
               then ((qBTC.price * aBTC.quantity -
                      aBTC.buyPrice * aBTC.quantity) /
                     (aBTC.buyPrice * aBTC.quantity)) * 100 else 0) } ∧
    (aBTC.buyPrice * aBTC.quantity = 0 →
      ((enrichAssetsWithPrices wDemo "USD" 0 ([] ++ aBTC :: []) []).1.get?
          (List.length ([] : List Asset))).map (fun e => e.pnlPct) =
        some (some 0)) :=
  enrich_success_valuation wDemo "USD" 0 [] [] aBTC [] qBTC rfl

/-- A provider network whose upstream responses carry a negative price. -/
def wNegative : World :=
  { coingecko := fun _ => CGResponse.json (some (-5))
    yahoo := fun _ =>
      YResponse.ok (some { regularMarketPrice := some (-5), currency := none })
    alphaVantage := fun _ => AVResponse.json (some (-5)) }

/-- Counterexample to C5 as stated: fed a negative upstream price, the
CoinGecko adapter returns a successful quote with price -5 < 0 instead of
failing; the falsy-price guard rejects only absent and zero prices. -/
theorem adapter_positive_price_counterexample :
    (fetchCoinGeckoPrice wNegative "USD" "BTC").1 =
      Except.ok { symbol := "BTC", price := -5, currency := "USD",
                  source := "CoinGecko" } ∧
    ¬ (0 : ℚ) < -5 := by
  constructor
  · rfl
  · norm_num

/-- C5 (amended): every quote an adapter returns successfully has a nonzero
price; an absent or zero upstream price makes the adapter fail with an
error rather than return a quote. -/
theorem adapters_nonzero_price (hasKey : Bool) (w : World)
    (fiat sym : String) :
    (∀ q n, fetchCoinGeckoPrice w fiat sym = (Except.ok q, n) →
        q.price ≠ 0) ∧
    (∀ q n, fetchYahooQuote w fiat sym = (Except.ok q, n) → q.price ≠ 0) ∧
    (∀ q n, fetchAlphaVantageQuote hasKey w fiat sym = (Except.ok q, n) →
        q.price ≠ 0) ∧
    (∀ pid, CRYPTO_MAP (jsToUpper sym) = some pid →
      (w.coingecko pid = CGResponse.json none ∨
       w.coingecko pid = CGResponse.json (some 0)) →
      (fetchCoinGeckoPrice w fiat sym).1 =
        Except.error "Price not found from CoinGecko") ∧
    (∀ yq, w.yahoo sym = YResponse.ok (some yq) →
      (yq.regularMarketPrice = none ∨ yq.regularMarketPrice = some 0) →
      (fetchYahooQuote w fiat sym).1 =
        Except.error "Yahoo Finance error: Price not found from Yahoo Finance") ∧
    (hasKey = true →
      (w.alphaVantage sym = AVResponse.json none ∨
       w.alphaVantage sym = AVResponse.json (some 0)) →
      (fetchAlphaVantageQuote hasKey w fiat sym).1 =
        Except.error "Price not found from Alpha Vantage") := by
  refine ⟨?_, ?_, ?_, ?_, ?_, ?_⟩
  · intro q n h
    unfold fetchCoinGeckoPrice at h
    rcases hm : CRYPTO_MAP (jsToUpper sym) with _ | pid <;> simp only [hm] at h
    · simp at h
    · rcases hr : w.coingecko pid with st | pr <;> simp only [hr] at h
      · simp at h
      · rcases hpr : pr with _ | p <;> simp only [hpr] at h
        · simp at h
        · by_cases h0 : p = 0
          · simp [h0] at h
          · simp [h0] at h
            intro hq
            rw [← h.1] at hq
            exact h0 hq
  · intro q n h
    unfold fetchYahooQuote at h
    rcases hy : w.yahoo sym with msg | oq <;> simp only [hy] at h
    · simp at h
    · rcases oq with _ | ⟨rmp, curr⟩
      · simp at h
      · rcases rmp with _ | p
        · simp at h
        · by_cases h0 : p = 0
          · simp [h0] at h
          · simp [h0] at h
            intro hq
            rw [← h.1] at hq
            exact h0 hq
  · intro q n h
    unfold fetchAlphaVantageQuote at h
    rcases hasKey with _ | _
    · simp at h
    · rcases ha : w.alphaVantage sym with st | pr <;> simp only [ha] at h
      · simp at h
      · rcases hpr : pr with _ | v <;> simp only [hpr] at h
        · simp at h
        · by_cases h0 : v = 0
          · simp [h0] at h
          · simp [h0] at h
            intro hq
            rw [← h.1] at hq
            exact h0 hq
  · intro pid hm hz
    rcases hz with hz | hz <;> simp [fetchCoinGeckoPrice, hm, hz]
  · intro yq hy hz
    rcases hz with hz | hz <;> simp [fetchYahooQuote, hy, hz]
  · intro hk hz
    subst hk
    rcases hz with hz | hz <;> simp [fetchAlphaVantageQuote, hz]

/-- Witness for C5 (amended): the demo network's successful BTC quote has
nonzero price, and a zero CoinGecko price is rejected as not found. -/
theorem adapters_nonzero_price_witness :
    qBTC.price ≠ 0 ∧
    (fetchCoinGeckoPrice
        { coingecko := fun _ => CGResponse.json (some 0)
          yahoo := fun _ => YResponse.fail "x"
          alphaVantage := fun _ => AVResponse.json none } "USD" "BTC").1 =
      Except.error "Price not found from CoinGecko" :=
  ⟨(adapters_nonzero_price true wDemo "USD" "BTC").1 qBTC 1 rfl,
   (adapters_nonzero_price true
      { coingecko := fun _ => CGResponse.json (some 0)
        yahoo := fun _ => YResponse.fail "x"
        alphaVantage := fun _ => AVResponse.json none } "USD" "BTC").2.2.2.1
     "bitcoin" rfl (Or.inr rfl)⟩

theorem char_toNat_ofNat_valid (n : Nat) (h : n.isValidChar) :
    (Char.ofNat n).toNat = n := by
  rw [Char.ofNat, dif_pos h]
  rfl

theorem char_toUpper_idem (c : Char) : c.toUpper.toUpper = c.toUpper := by
  simp only [Char.toUpper]
  by_cases h : c.toNat ≥ 97 ∧ c.toNat ≤ 122
  · rw [if_pos h]
    have hv : (c.toNat - 32).isValidChar := by
      left
      omega
    rw [char_toNat_ofNat_valid _ hv]
    rw [if_neg (by omega)]
  · rw [if_neg h, if_neg h]

theorem list_map_toUpper_idem (l : List Char) :
    (l.map Char.toUpper).map Char.toUpper = l.map Char.toUpper := by
  induction l with
  | nil => rfl
  | cons c t ih => simp [char_toUpper_idem c, ih]

theorem jsToUpper_idem (s : String) : jsToUpper (jsToUpper s) = jsToUpper s := by
  rcases s with ⟨l⟩
  show String.mk ((l.map Char.toUpper).map Char.toUpper) =
    String.mk (l.map Char.toUpper)
  rw [list_map_toUpper_idem]

theorem jsToUpper_append (a b : String) :
    jsToUpper (a ++ b) = jsToUpper a ++ jsToUpper b := by
  rcases a with ⟨la⟩
  rcases b with ⟨lb⟩
  show String.mk ((la ++ lb).map Char.toUpper) =
    String.mk (la.map Char.toUpper) ++ String.mk (lb.map Char.toUpper)
  rw [List.map_append]
  rfl

theorem quoteKey_crypto_toUpper (s : String) :
    quoteKey "crypto" s = quoteKey "crypto" (jsToUpper s) := by
  unfold quoteKey
  simp only [jsToUpper_append, jsToUpper_idem]

theorem getQuote_crypto_miss (w : World) (fiat : String) (c : Cache)
    (now : ℚ) (sym : String)
    (hmiss : cacheGet c now (quoteKey "crypto" sym) = none) :
    getQuote w fiat c now "crypto" sym =
      match fetchCoinGeckoPrice w fiat sym with
      | (Except.ok r, n) =>
        (Except.ok r, cacheSet c now CRYPTO_TTL (quoteKey "crypto" sym) r, n)
      | (Except.error e, n) => (Except.error e, c, n) := by
  simp only [getQuote, hmiss]
  simp

/-- C10: crypto resolution is case-insensitive in the symbol: s and
uppercase(s) share one uppercased cache key, the adapter looks up the same
provider id for both, a successful adapter quote carries symbol
uppercase(s), and for any mapped symbol the two resolutions behave
identically end to end. -/
theorem getQuote_crypto_case_insensitive (w : World) (fiat : String)
    (c : Cache) (now : ℚ) (s : String) :
    quoteKey "crypto" s = quoteKey "crypto" (jsToUpper s) ∧
    (∀ q n, fetchCoinGeckoPrice w fiat s = (Except.ok q, n) →
        q.symbol = jsToUpper s) ∧
    (∀ pid, CRYPTO_MAP (jsToUpper s) = some pid →
      fetchCoinGeckoPrice w fiat s = fetchCoinGeckoPrice w fiat (jsToUpper s) ∧
      getQuote w fiat c now "crypto" s =
        getQuote w fiat c now "crypto" (jsToUpper s)) := by
  have hkey := quoteKey_crypto_toUpper s
  refine ⟨hkey, ?_, ?_⟩
  · intro q n h
    unfold fetchCoinGeckoPrice at h
    rcases hm : CRYPTO_MAP (jsToUpper s) with _ | pid <;> simp only [hm] at h
    · simp at h
    · rcases hr : w.coingecko pid with st | pr <;> simp only [hr] at h
      · simp at h
      · rcases hpr : pr with _ | p <;> simp only [hpr] at h
        · simp at h
        · by_cases h0 : p = 0
          · simp [h0] at h
          · simp [h0] at h
            rw [← h.1]
  · intro pid hm
    have hfetch : fetchCoinGeckoPrice w fiat s =
        fetchCoinGeckoPrice w fiat (jsToUpper s) := by
      unfold fetchCoinGeckoPrice
      rw [jsToUpper_idem, hm]
    refine ⟨hfetch, ?_⟩
    rcases hc : cacheGet c now (quoteKey "crypto" s) with _ | cached
    · have hc2 : cacheGet c now (quoteKey "crypto" (jsToUpper s)) = none := by
        rw [← hkey]
        exact hc
      rw [getQuote_crypto_miss w fiat c now s hc,
          getQuote_crypto_miss w fiat c now (jsToUpper s) hc2, hfetch, ← hkey]
    · have hc2 : cacheGet c now (quoteKey "crypto" (jsToUpper s)) =
          some cached := by
        rw [← hkey]
        exact hc
      rw [getQuote_cache_hit w fiat c now "crypto" s cached hc,
          getQuote_cache_hit w fiat c now "crypto" (jsToUpper s) cached hc2]

/-- Witness for C10: the mixed-case symbol btc resolves exactly as BTC and
its quote carries the uppercased symbol. -/
theorem getQuote_crypto_case_insensitive_witness :
    qBTC.symbol = jsToUpper "btc" ∧
    getQuote wDemo "USD" [] 0 "crypto" "btc" =
      getQuote wDemo "USD" [] 0 "crypto" (jsToUpper "btc") :=
  ⟨(getQuote_crypto_case_insensitive wDemo "USD" [] 0 "btc").2.1 qBTC 1 rfl,
   ((getQuote_crypto_case_insensitive wDemo "USD" [] 0 "btc").2.2 "bitcoin"
      rfl).2⟩

end PortfolioTracker
